import Mathlib

namespace Microf

/-- Character classes occurring in the regexes compiled by the program. -/
inductive CharCls
  | digit
  | notUnderscore
  | upper
  | alphaAny
  | anyC
deriving DecidableEq, Repr

def CharCls.test (ci : Bool) : CharCls → Char → Bool
  | .digit, c => '0' ≤ c && c ≤ '9'
  | .notUnderscore, c => c != '_'
  | .upper, c => ('A' ≤ c && c ≤ 'Z') || (ci && 'a' ≤ c && c ≤ 'z')
  | .alphaAny, c => ('A' ≤ c && c ≤ 'Z') || ('a' ≤ c && c ≤ 'z')
  | .anyC, c => c != '\n'

inductive Quant
  | exact (n : Nat)
  | star
  | plus
deriving DecidableEq, Repr

inductive Token
  | lit (c : Char)
  | cap (cls : CharCls) (q : Quant)
  | dot
deriving DecidableEq, Repr

def charEq (ci : Bool) (p c : Char) : Bool :=
  if ci then p.toLower == c.toLower else p == c

def candidates (q : Quant) (maxRun : Nat) : List Nat :=
  match q with
  | .exact n => if n ≤ maxRun then [n] else []
  | .star => (List.range (maxRun + 1)).reverse
  | .plus => ((List.range (maxRun + 1)).reverse).dropLast

/-- Backtracking matcher (greedy, leftmost) with fuel. -/
def reMatchF (ci : Bool) : Nat → List Token → List Char → Option (List (List Char) × List Char)
  | 0, _, _ => none
  | fuel + 1, ts, s =>
    match ts with
    | [] => some ([], s)
    | Token.lit p :: ts' =>
      match s with
      | [] => none
      | c :: s' => if charEq ci p c then reMatchF ci fuel ts' s' else none
    | Token.dot :: ts' =>
      match s with
      | [] => none
      | c :: s' => if c = '\n' then none else reMatchF ci fuel ts' s'
    | Token.cap cls q :: ts' =>
      let maxRun := (s.takeWhile (cls.test ci)).length
      (candidates q maxRun).findSome? fun n =>
        match reMatchF ci fuel ts' (s.drop n) with
        | some (gs, rest) => some (s.take n :: gs, rest)
        | none => none

def reMatch (ci : Bool) (ts : List Token) (s : List Char) :
    Option (List (List Char) × List Char) :=
  reMatchF ci (ts.length + 1) ts s

/-- Number of capturing groups in a token list. -/
def capCount : List Token → Nat
  | [] => 0
  | Token.cap _ _ :: ts => capCount ts + 1
  | _ :: ts => capCount ts

/-- Token lists free of the unescaped-extension wildcard `.` token. -/
def noDot (ts : List Token) : Bool :=
  ts.all fun t => match t with
    | Token.dot => false
    | _ => true

/-- `os.path.splitext`: split at the last `.`, unless every character before
that dot is itself a dot (then no extension is recognized). -/
def splitext (f : List Char) : List Char × List Char :=
  match f.reverse.findIdx? (· = '.') with
  | none => (f, [])
  | some k =>
    let i := f.length - 1 - k
    if (f.take i).all (· = '.') then (f, [])
    else (f.take i, f.drop i)

def lowerL (l : List Char) : List Char := l.map Char.toLower

/-- `split_image_extension`: strip the extension only when it is one of the
known image extensions.  The source's list is `['.jpg', '.jpeg' '.png',
'.tiff', '.tif']`: the missing comma makes Python concatenate the two adjacent
literals into the single entry `'.jpeg.png'`, so neither `.jpeg` nor `.png`
is actually recognized; this is reproduced faithfully here. -/
def splitImageExt (f : List Char) : List Char × List Char :=
  let p := splitext f
  if lowerL p.2 = ".jpg".data ∨ lowerL p.2 = ".jpeg.png".data ∨
     lowerL p.2 = ".tiff".data ∨ lowerL p.2 = ".tif".data then
    (p.1, p.2)
  else (f, [])

/-- Python `str.split('*')`. -/
def splitStar : List Char → List (List Char)
  | [] => [[]]
  | c :: rest =>
    if c = '*' then [] :: splitStar rest
    else
      match splitStar rest with
      | [] => [[c]]
      | p :: ps => (c :: p) :: ps

/-- The de-sugared form shared by `_make_filename_re` and `_make_filename_fmt`:
the glob with its image extension split off, cut at the `*` wildcards. -/
structure StarPattern where
  parts : List (List Char)
  ext : List Char
deriving DecidableEq, Repr

def makeStarPattern (g : List Char) : StarPattern :=
  let p := splitImageExt g
  ⟨splitStar p.1, p.2⟩

def litToks (p : List Char) : List Token := p.map Token.lit

/-- Interleave the literal (escaped) parts with greedy `(?P<wildcardN>.*)`
groups, as `_make_star_pattern` does. -/
def starToks : List (List Char) → List Token
  | [] => []
  | p :: [] => litToks p
  | p :: q :: ps => litToks p ++ Token.cap .anyC .star :: starToks (q :: ps)

/-- The extension is appended to the regex unescaped, so its `.` is the
any-character metacharacter. -/
def extToks (ext : List Char) : List Token :=
  ext.map fun c => if c = '.' then Token.dot else Token.lit c

/-- `Rename._make_filename_re` as a token list. -/
def makeFilenameRe (g : List Char) : List Token :=
  let sp := makeStarPattern g
  starToks sp.parts ++ extToks sp.ext

/-- Interleave formatter parts with the substituted wildcard captures; this is
`to_pattern.format(**params)` for the brace-free templates the program builds. -/
def interleave : List (List Char) → List (List Char) → List Char
  | [], _ => []
  | p :: [], _ => p
  | p :: _ :: _, [] => p
  | p :: q :: ps, g :: gs => p ++ g ++ interleave (q :: ps) gs

/-- `Rename._make_filename_fmt` followed by `.format(**params)`. -/
def fill (sp : StarPattern) (gs : List (List Char)) : List Char :=
  interleave sp.parts gs ++ sp.ext

/-- Values stored in the pipeline state dictionary. -/
inductive StateVal
  | str (s : List Char)
  | int (n : Nat)
  | bool (b : Bool)
deriving DecidableEq, Repr

abbrev RState := List (String × StateVal)

def assocLookup {α β : Type} [DecidableEq α] (k : α) : List (α × β) → Option β
  | [] => none
  | (k', v) :: rest => if k' = k then some v else assocLookup k rest

def stateLookup (k : String) (st : RState) : Option StateVal := assocLookup k st

/-- Python truthiness for the values a pipeline state can hold. -/
def truthy : StateVal → Bool
  | .str s => !s.isEmpty
  | .int n => n ≠ 0
  | .bool b => b

/-- Result of an action's `accept`: a new name plus parameters to merge, a
`Reject`, or an uncaught (fatal) exception carrying its message. -/
inductive AcceptResult
  | ok (new : List Char) (params : RState)
  | reject (reason : String)
  | fatal (msg : String)
deriving DecidableEq, Repr

/-- `Rename.__init__` stores the compiled pattern in `self.from_pattern`, but
in the unconfigured branch it assigns `self._from_pattern = None` (note the
leading underscore): the `from_pattern` attribute is then never set, which is
`unsetAttr` here; reading it raises `AttributeError`. -/
inductive RenameCfg
  | unsetAttr
  | pat (fromToks : List Token) (toPat : StarPattern)
deriving DecidableEq, Repr

def attrErrorMsg : String :=
  "AttributeError: 'Rename' object has no attribute 'from_pattern'"

def countStar (l : List Char) : Nat := l.count '*'

def wildcardCountErr : String :=
  "The patterns provided to `--from-pattern` and `--to-pattern` do not contain the same number of `*` wildcard characters."

/-- `Rename.__init__`: falsy pattern => unconfigured; unequal `*` counts =>
`RuntimeError`; otherwise compile matcher and formatter. -/
def renameInit (fromP toP : List Char) : Except String RenameCfg :=
  if fromP = [] ∨ toP = [] then .ok .unsetAttr
  else if countStar fromP ≠ countStar toP then .error wildcardCountErr
  else .ok (.pat (makeFilenameRe fromP) (makeStarPattern toP))

def wildcardParams (gs : List (List Char)) : RState :=
  gs.enum.map fun p => ("wildcard" ++ toString p.1, StateVal.str p.2)

/-- `Rename.accept`. -/
def renameAcceptR (cfg : RenameCfg) (f : List Char) : AcceptResult :=
  match cfg with
  | .unsetAttr => .fatal attrErrorMsg
  | .pat toks toP =>
    match reMatch false toks f with
    | none =>
      .reject ("File name `" ++ String.mk f ++ "` does not match pattern provided with `--from-pattern`")
    | some (gs, _) => .ok (fill toP gs) (wildcardParams gs)

/-- `TiffToPng.accept`. -/
def tiffAccept (f : List Char) : AcceptResult :=
  let p := splitext f
  if lowerL p.2 = ".tif".data ∨ lowerL p.2 = ".tiff".data then
    .ok (p.1 ++ ".png".data) []
  else .reject "not a TIFF file"

/-- The `_ic6000_pattern` regex, compiled with `re.I`. -/
def ic6000Tokens : List Token :=
  [Token.cap .digit (.exact 8), Token.lit '_'] ++
  [Token.cap .notUnderscore .plus, Token.lit '_'] ++
  [Token.cap .upper .plus] ++ litToks " - ".data ++
  [Token.cap .digit .plus, Token.lit '('] ++ litToks "fld ".data ++
  [Token.cap .digit .plus] ++ litToks " wv ".data ++
  [Token.cap .alphaAny .plus] ++ litToks " - ".data ++
  [Token.cap .anyC .plus, Token.lit ')', Token.lit '.']

def ic6000Match (f : List Char) : Option (List (List Char) × List Char) :=
  reMatch true ic6000Tokens f

/-- The `_ic6000_channels` closed lookup table. -/
def channels : List (List Char × Nat) :=
  [("DAPI".data, 1), ("FITC".data, 2), ("dsRed".data, 3), ("Cy5".data, 4)]

def channelsLookup (tag : List Char) : Option Nat := assocLookup tag channels

def natOfDigits (l : List Char) : Nat :=
  l.foldl (fun n c => n * 10 + (c.toNat - 48)) 0

/-- Zero-padding of `'{:0Nd}'.format(n)`. -/
def pad (w : Nat) (n : Nat) : List Char :=
  let s := (Nat.repr n).data
  List.replicate (w - s.length) '0' ++ s

/-- The `_cv7000_fmt` template. -/
def cv7000Name (expName wl : List Char) (wellNr site channel : Nat) : List Char :=
  expName ++ "_".data ++ wl ++ pad 2 wellNr ++ "_T0001F".data ++ pad 3 site ++
  "L01A01Z01C".data ++ pad 2 channel ++ ".tif".data

def ic6kErrMsg (f tag : List Char) : String :=
  String.mk ("Cannot parse file name `".data ++
    (f ++ ("` with IC6000 pattern: '".data ++ (tag ++ "'".data))))

/-- `IC6kToCV7k.accept`: no match is a `Reject`; a match whose channel tag is
outside the table escalates (via the broad `except`) to a `RuntimeError`. -/
def ic6kAccept (f : List Char) : AcceptResult :=
  match ic6000Match f with
  | none => .reject "file name does not match the configured IC6000 pattern"
  | some (gs, _) =>
    let date := gs.getD 0 []
    let name := gs.getD 1 []
    let wl := gs.getD 2 []
    let wn := gs.getD 3 []
    let site := gs.getD 4 []
    let tag := gs.getD 6 []
    match channelsLookup tag with
    | none => .fatal (ic6kErrMsg f tag)
    | some ch =>
      let expName := date ++ "_".data ++ name
      .ok (cv7000Name expName wl (natOfDigits wn) (natOfDigits site) ch)
        [("experiment_name", .str expName), ("well_letter", .str wl),
         ("well_nr", .int (natOfDigits wn)), ("site", .int (natOfDigits site)),
         ("channel", .int ch)]

/-- The fixed set of pipeline actions `build_pipeline` can assemble. -/
inductive PAction
  | mention
  | ic6k
  | rename (cfg : RenameCfg)
  | tiffToPng
  | newName
  | remove
deriving DecidableEq, Repr

/-- Per-action `accept`; `Mention`, `NewName` and `Remove` inherit the base
class identity `accept`. -/
def actionAccept : PAction → List Char → AcceptResult
  | .mention, f => .ok f []
  | .newName, f => .ok f []
  | .remove, f => .ok f []
  | .tiffToPng, f => tiffAccept f
  | .ic6k, f => ic6kAccept f
  | .rename cfg, f => renameAcceptR cfg f

/-- A command template: literal pieces and `{key}` placeholders. -/
inductive FmtPart
  | str (s : String)
  | key (k : String)
deriving DecidableEq, Repr

abbrev Fmt := List FmtPart

def mentionFmt : Fmt := [.str "# '", .key "old", .str "' -> '", .key "new", .str "'"]
def lnFmt : Fmt := [.str "ln -f '", .key "old", .str "' '", .key "new", .str "'"]
def rmFmt : Fmt := [.str "rm -f '", .key "old", .str "'"]
def convertFmt : Fmt :=
  [.str "convert -depth 16 -colorspace gray '", .key "old", .str "' '", .key "new", .str "'"]

/-- Per-action `process`; a missing state key is Python's `KeyError`. -/
def actionProcess : PAction → List Fmt → RState → Except String (List Fmt × RState)
  | .mention, fmts, st => .ok (fmts ++ [mentionFmt], st)
  | .newName, fmts, st =>
    match stateLookup "old" st, stateLookup "new" st with
    | some a, some b => if a = b then .ok (fmts, st) else .ok (fmts ++ [lnFmt], st)
    | _, _ => .error "KeyError"
  | .remove, fmts, st =>
    match stateLookup "keep" st with
    | some v => if truthy v then .ok (fmts, st) else .ok (fmts ++ [rmFmt], st)
    | none => .error "KeyError"
  | .tiffToPng, fmts, st => .ok (fmts ++ [convertFmt], st)
  | .rename _, fmts, st => .ok (fmts, st)
  | .ic6k, fmts, st => .ok (fmts, st)

def processAll (acts : List PAction) (fmts : List Fmt) (st : RState) :
    Except String (List Fmt × RState) :=
  match acts with
  | [] => .ok (fmts, st)
  | a :: rest =>
    match actionProcess a fmts st with
    | .error e => .error e
    | .ok p => processAll rest p.1 p.2

def renderVal : StateVal → List Char
  | .str s => s
  | .int n => (Nat.repr n).data
  | .bool b => if b then "True".data else "False".data

def renderFmt (st : RState) : Fmt → Except String (List Char)
  | [] => .ok []
  | .str s :: rest => (renderFmt st rest).map (fun r => s.data ++ r)
  | .key k :: rest =>
    match stateLookup k st with
    | none => .error ("KeyError: " ++ k)
    | some v => (renderFmt st rest).map (fun r => renderVal v ++ r)

def renderAll (st : RState) : List Fmt → Except String (List (List Char))
  | [] => .ok []
  | f :: fs =>
    match renderFmt st f with
    | .error e => .error e
    | .ok r =>
      match renderAll st fs with
      | .error e => .error e
      | .ok rs => .ok (r :: rs)

/-- `posixpath.basename`. -/
def basename (p : List Char) : List Char :=
  p.foldl (fun acc c => if c = '/' then [] else acc ++ [c]) []

/-- The argument fields of the command line that the core consumes. -/
structure Args where
  convert : Bool
  rename : Bool
  fromPattern : String
  toPattern : String
  keep : Bool
  check : Bool
deriving DecidableEq, Repr

/-- `parse_command_line`'s pre-flight validations. -/
def validateArgs (a : Args) : Except String Unit :=
  if !(a.convert || a.rename) then
    .error "At least one of options `--convert` or `--rename` should be given."
  else if ((a.fromPattern != "") != (a.toPattern != "")) then
    .error "If one of options `--from-pattern` or `--to-pattern` is given, then the other must be given as well."
  else .ok ()

/-- The optional user-pattern `Rename` stage of `build_pipeline`; constructing
`Rename(args)` can raise the wildcard-count `RuntimeError`. -/
def renameStage (a : Args) : Except String (List PAction) :=
  if a.fromPattern ≠ "" then
    match renameInit a.fromPattern.data a.toPattern.data with
    | .ok cfg => .ok [PAction.rename cfg]
    | .error e => .error e
  else .ok []

/-- `build_pipeline`. -/
def buildPipeline (a : Args) : Except String (List PAction) :=
  match renameStage a with
  | .error e => .error e
  | .ok m =>
    .ok (([PAction.mention] ++ (if a.rename then [PAction.ic6k] else [])) ++ m ++
      ((if a.convert then [PAction.tiffToPng]
        else if a.rename then [PAction.newName] else []) ++
       (if !a.keep then [PAction.remove] else [])))

/-- Outcome of running every action's `accept` over one file. -/
inductive AcceptOutcome
  | accepted (f : List Char) (st : RState)
  | rejectedO (reason : String)
  | fatalO (msg : String)
deriving DecidableEq, Repr

def acceptAll (acts : List PAction) (f : List Char) (st : RState) : AcceptOutcome :=
  match acts with
  | [] => .accepted f st
  | a :: rest =>
    match actionAccept a f with
    | .ok new params => acceptAll rest new (params ++ st)
    | .reject r => .rejectedO r
    | .fatal m => .fatalO m

def initState (a : Args) (path : List Char) : RState :=
  [("old", .str (basename path)), ("check", .bool a.check), ("keep", .bool a.keep)]

/-- Python-dict insert: replace in place, or append a fresh key. -/
def dictInsert (todo : List (List Char × RState)) (k : List Char) (v : RState) :
    List (List Char × RState) :=
  match todo with
  | [] => [(k, v)]
  | (k', v') :: rest =>
    if k' = k then (k', v) :: rest else (k', v') :: dictInsert rest k v

/-- The accept loop of `do_actions`: the first `Reject` of a file counts it
as ignored; any other exception propagates and aborts the whole run. -/
def doLoop (acts : List PAction) (a : Args) :
    List (List Char) → List (List Char × RState) → Nat →
    Except String (List (List Char × RState) × Nat)
  | [], todo, ign => .ok (todo, ign)
  | p :: rest, todo, ign =>
    match acceptAll acts (basename p) (initState a p) with
    | .fatalO m => .error m
    | .rejectedO _ => doLoop acts a rest todo (ign + 1)
    | .accepted f st => doLoop acts a rest (dictInsert todo p (("new", .str f) :: st)) ign

def materialize (acts : List PAction) :
    List (List Char × RState) → Except String (List (List Char))
  | [] => .ok []
  | e :: rest =>
    match processAll acts [] e.2 with
    | .error err => .error err
    | .ok p =>
      match renderAll p.2 p.1 with
      | .error err => .error err
      | .ok rendered =>
        match materialize acts rest with
        | .error err => .error err
        | .ok others => .ok (List.intercalate "\n".data rendered :: others)

/-- The numbers of the `Examined {total} files: {to_do} to convert,
{ignored} ignored.` summary, plus the materialized command sequences. -/
structure DoResult where
  total : Nat
  toDo : Nat
  ignored : Nat
  cmds : List (List Char)
deriving DecidableEq, Repr

/-- `do_actions` up to (and including) command materialization. -/
def doActions (acts : List PAction) (a : Args) (inbox : List (List Char)) :
    Except String DoResult :=
  match doLoop acts a inbox [] 0 with
  | .error e => .error e
  | .ok r =>
    match materialize acts r.1 with
    | .error e => .error e
    | .ok cmds => .ok ⟨inbox.length, r.1.length, r.2, cmds⟩

def preflight (a : Args) : Except String (List PAction) :=
  match validateArgs a with
  | .error e => .error e
  | .ok _ => buildPipeline a

/-- `main`: argument validation, pipeline construction, then `do_actions`. -/
def mainModel (a : Args) (inbox : List (List Char)) : Except String DoResult :=
  match preflight a with
  | .error e => .error e
  | .ok acts => doActions acts a inbox

/-- The three dispatch modes of `run`. -/
inductive RunEffect
  | printed (cmds : List String)
  | submitted (cmds : List String) (size : Nat)
  | executed (cmds : List String)
deriving DecidableEq, Repr

/-- `run(cmds, just_print, batch)`. -/
def run (cmds : List String) (justPrint : Bool) (batch : Nat) : RunEffect :=
  if justPrint then .printed cmds
  else if batch ≠ 0 then .submitted cmds batch
  else .executed cmds

/-- Fixed-size chunking, fuelled so that it reduces definitionally. -/
def chunksF {α : Type} : Nat → Nat → List α → List (List α)
  | 0, _, _ => []
  | _ + 1, _, [] => []
  | fuel + 1, size, c :: l' => (c :: l').take size :: chunksF fuel size ((c :: l').drop size)

/-- `grouper`: `izip_longest` over `size` copies of one iterator, i.e. chunks
right-padded with the fill value to the full batch size. -/
def grouper {α : Type} (size : Nat) (l : List α) (fillv : α) : List (List α) :=
  (chunksF l.length size l).map fun c => c ++ List.replicate (size - c.length) fillv

/-- The commands written into batch script `n`: the `n`-th padded group, with
the write loop `break`ing at the first `None` padding element. -/
def slurmBatches (cmds : List String) (size : Nat) : List (List String) :=
  (grouper size (cmds.map some) none).map fun b =>
    (b.takeWhile Option.isSome).filterMap id

/-- The `n` of `--array=0-{n}`: the last `enumerate` index of the batch loop.
If there is no batch at all, `n` is never bound and the submission line
raises `NameError`, so no array range is declared: that is `none`. -/
def slurmArrayTop (cmds : List String) (size : Nat) : Option Nat :=
  match (grouper size (cmds.map some) none).length with
  | 0 => none
  | k + 1 => some k

/-- Lengths of the batches produced from `m` commands at batch size `size`
(fuelled like `chunksF`). -/
def sizeChunks : Nat → Nat → Nat → List Nat
  | 0, _, _ => []
  | _ + 1, _, 0 => []
  | fuel + 1, size, m + 1 => min size (m + 1) :: sizeChunks fuel size (m + 1 - size)

/-- Executable substring test. -/
def substrB (needle : List Char) : List Char → Bool
  | [] => needle.isEmpty
  | c :: rest => needle.isPrefixOf (c :: rest) || substrB needle rest

/-- Reassemble the characters a match derivation consumed: literal tokens
contribute the pattern character, capture tokens the captured group. -/
def rebuild : List Token → List (List Char) → List Char
  | [], _ => []
  | Token.lit c :: ts, gs => c :: rebuild ts gs
  | Token.cap _ _ :: _, [] => []
  | Token.cap _ _ :: ts, g :: gs => g ++ rebuild ts gs
  | Token.dot :: ts, gs => rebuild ts gs

/-- `str.format` treats braces as syntax, so the structural model of the
formatter is only faithful for glob patterns that contain none. -/
def hasBrace (l : List Char) : Bool :=
  l.any fun c => c.toNat = 123 || c.toNat = 125

/-- The arguments of a `--convert`-only invocation without `--keep`. -/
def cargs : Args := ⟨true, false, "", "", false, false⟩

/-- The pipeline `build_pipeline` assembles for `cargs`. -/
def convertActs : List PAction := [PAction.mention, PAction.tiffToPng, PAction.remove]

/-- The command sequence materialized for `a.tif` under `cargs`. -/
def c9cmd : List Char :=
  ("# 'a.tif' -> 'a.png'\nconvert -depth 16 -colorspace gray 'a.tif' 'a.png'\nrm -f 'a.tif'").data

/-- The compiled `Rename` configuration for `--from-pattern img_*_ch*`,
`--to-pattern sample_*_channel*`. -/
def c6cfg : RenameCfg :=
  RenameCfg.pat (makeFilenameRe ("img_*_ch*".data)) (makeStarPattern ("sample_*_channel*".data))

/-- A pipeline state whose `old` and `new` entries agree. -/
def nnState : RState := [("old", StateVal.str "x".data), ("new", StateVal.str "x".data)]

/-- Arguments with from/to patterns of unequal wildcard counts. -/
def margs : Args := ⟨true, false, "a*", "b", false, false⟩

theorem findSome_ex {α β : Type} (f : α → Option β) :
    ∀ (l : List α) (b : β), l.findSome? f = some b → ∃ a, a ∈ l ∧ f a = some b := by
  intro l
  induction l with
  | nil => intro b h; simp [List.findSome?] at h
  | cons a t ih =>
    intro b h
    rw [List.findSome?] at h
    cases hfa : f a with
    | some v =>
      rw [hfa] at h
      simp at h
      exact ⟨a, List.mem_cons_self a t, by rw [hfa, h]⟩
    | none =>
      rw [hfa] at h
      obtain ⟨a', ha', hfa'⟩ := ih b h
      exact ⟨a', List.mem_cons_of_mem a ha', hfa'⟩

theorem reMatchF_sound :
    ∀ (fuel : Nat) (ts : List Token) (s gs_rest_s : List Char) (gs : List (List Char)),
    noDot ts = true → reMatchF false fuel ts s = some (gs, gs_rest_s) →
    rebuild ts gs ++ gs_rest_s = s := by
  intro fuel
  induction fuel with
  | zero => intro ts s rest gs _ h; simp [reMatchF] at h
  | succ fuel ih =>
    intro ts s rest gs hnd h
    match ts with
    | [] =>
      simp [reMatchF] at h
      simp [rebuild, h.2]
    | Token.lit p :: ts' =>
      match s with
      | [] => simp [reMatchF] at h
      | c :: s' =>
        simp only [reMatchF] at h
        by_cases hc : charEq false p c
        · rw [if_pos hc] at h
          have hpc : p = c := by
            simpa [charEq] using hc
          have hnd' : noDot ts' = true := by simpa [noDot] using hnd
          have := ih ts' s' rest gs hnd' h
          rw [rebuild, hpc, List.cons_append, this]
        · rw [if_neg hc] at h; exact absurd h (by simp)
    | Token.dot :: ts' =>
      simp [noDot] at hnd
    | Token.cap cls q :: ts' =>
      simp only [reMatchF] at h
      obtain ⟨n, _, hfn⟩ := findSome_ex _ _ _ h
      cases hre : reMatchF false fuel ts' (s.drop n) with
      | none => rw [hre] at hfn; exact absurd hfn (by simp)
      | some pr =>
        rw [hre] at hfn
        have hgs : gs = s.take n :: pr.1 ∧ rest = pr.2 := by
          cases pr with
          | mk prg prr =>
            simp at hfn
            exact ⟨hfn.1.symm, hfn.2.symm⟩
        have hnd' : noDot ts' = true := by simpa [noDot] using hnd
        have hrec := ih ts' (s.drop n) pr.2 pr.1 hnd' (by rw [hre])
        rw [hgs.1, hgs.2, rebuild, List.append_assoc, hrec, List.take_append_drop]

theorem reMatchF_len (ci : Bool) :
    ∀ (fuel : Nat) (ts : List Token) (s rest : List Char) (gs : List (List Char)),
    reMatchF ci fuel ts s = some (gs, rest) → gs.length = capCount ts := by
  intro fuel
  induction fuel with
  | zero => intro ts s rest gs h; simp [reMatchF] at h
  | succ fuel ih =>
    intro ts s rest gs h
    match ts with
    | [] =>
      simp [reMatchF] at h
      simp [h.1, capCount]
    | Token.lit p :: ts' =>
      match s with
      | [] => simp [reMatchF] at h
      | c :: s' =>
        simp only [reMatchF] at h
        by_cases hc : charEq ci p c
        · rw [if_pos hc] at h
          rw [show capCount (Token.lit p :: ts') = capCount ts' from rfl]
          exact ih ts' s' rest gs h
        · rw [if_neg hc] at h; exact absurd h (by simp)
    | Token.dot :: ts' =>
      match s with
      | [] => simp [reMatchF] at h
      | c :: s' =>
        simp only [reMatchF] at h
        by_cases hc : c = '\n'
        · rw [if_pos hc] at h; exact absurd h (by simp)
        · rw [if_neg hc] at h
          rw [show capCount (Token.dot :: ts') = capCount ts' from rfl]
          exact ih ts' s' rest gs h
    | Token.cap cls q :: ts' =>
      simp only [reMatchF] at h
      obtain ⟨n, _, hfn⟩ := findSome_ex _ _ _ h
      cases hre : reMatchF ci fuel ts' (s.drop n) with
      | none => rw [hre] at hfn; exact absurd hfn (by simp)
      | some pr =>
        rw [hre] at hfn
        cases pr with
        | mk prg prr =>
          simp at hfn
          rw [← hfn.1, show capCount (Token.cap cls q :: ts') = capCount ts' + 1 from rfl]
          simp [ih ts' (s.drop n) prr prg (by rw [hre])]

theorem rebuild_litToks (p : List Char) :
    ∀ (ts : List Token) (gs : List (List Char)),
    rebuild (litToks p ++ ts) gs = p ++ rebuild ts gs := by
  induction p with
  | nil => intro ts gs; simp [litToks]
  | cons c p' ih => intro ts gs; simp [litToks, rebuild] at ih ⊢; rw [ih]

theorem capCount_litToks_append (p : List Char) (ts : List Token) :
    capCount (litToks p ++ ts) = capCount ts := by
  induction p with
  | nil => simp [litToks]
  | cons c p' ih => simpa [litToks, capCount] using ih

theorem capCount_starToks : ∀ (parts : List (List Char)),
    capCount (starToks parts) = parts.length - 1 := by
  intro parts
  match parts with
  | [] => rfl
  | [p] =>
    rw [starToks, show litToks p = litToks p ++ [] by simp]
    rw [capCount_litToks_append]
    rfl
  | p :: q :: ps =>
    rw [starToks, capCount_litToks_append]
    rw [show capCount (Token.cap CharCls.anyC Quant.star :: starToks (q :: ps)) =
      capCount (starToks (q :: ps)) + 1 from rfl]
    rw [capCount_starToks (q :: ps)]
    simp

theorem noDot_litToks_append (p : List Char) (ts : List Token) :
    noDot (litToks p ++ ts) = noDot ts := by
  induction p with
  | nil => simp [litToks]
  | cons c p' ih => simp [litToks, noDot]

theorem noDot_starToks : ∀ (parts : List (List Char)),
    noDot (starToks parts) = true := by
  intro parts
  match parts with
  | [] => rfl
  | [p] =>
    rw [starToks, show litToks p = litToks p ++ [] by simp, noDot_litToks_append]
    rfl
  | p :: q :: ps =>
    rw [starToks, noDot_litToks_append]
    have := noDot_starToks (q :: ps)
    simp [noDot] at this ⊢
    exact this

theorem rebuild_starToks : ∀ (parts : List (List Char)) (gs : List (List Char)),
    gs.length = parts.length - 1 →
    rebuild (starToks parts) gs = interleave parts gs := by
  intro parts
  match parts with
  | [] =>
    intro gs h
    rw [starToks, interleave, rebuild]
  | [p] =>
    intro gs h
    simp at h
    subst h
    rw [starToks, interleave, show litToks p = litToks p ++ [] by simp,
      rebuild_litToks, rebuild]
    simp
  | p :: q :: ps =>
    intro gs h
    simp at h
    match gs with
    | [] => simp at h
    | g :: gs' =>
      simp at h
      rw [starToks, rebuild_litToks, rebuild, interleave,
        rebuild_starToks (q :: ps) gs' (by simp [h]), List.append_assoc]

theorem chunksF_join {α : Type} :
    ∀ (fuel size : Nat) (l : List α), l.length ≤ fuel → 1 ≤ size →
    (chunksF fuel size l).flatten = l := by
  intro fuel
  induction fuel with
  | zero =>
    intro size l hl _
    have : l = [] := by
      cases l with
      | nil => rfl
      | cons c l' => simp at hl
    subst this
    simp [chunksF]
  | succ fuel ih =>
    intro size l hl hs
    cases l with
    | nil => simp [chunksF]
    | cons c l' =>
      rw [chunksF, List.flatten_cons]
      rw [ih size (List.drop size (c :: l'))
        (by rw [List.length_drop]; simp only [List.length_cons] at hl ⊢; omega) hs]
      exact List.take_append_drop size (c :: l')

theorem chunksF_length {α : Type} :
    ∀ (fuel size : Nat) (l : List α), l.length ≤ fuel → 1 ≤ size →
    (chunksF fuel size l).length = (l.length + size - 1) / size := by
  intro fuel
  induction fuel with
  | zero =>
    intro size l hl hs
    have : l = [] := by
      cases l with
      | nil => rfl
      | cons c l' => simp at hl
    subst this
    simp only [chunksF, List.length_nil, Nat.zero_add]
    exact (Nat.div_eq_of_lt (by omega)).symm
  | succ fuel ih =>
    intro size l hl hs
    cases l with
    | nil =>
      simp only [chunksF, List.length_nil, Nat.zero_add]
      exact (Nat.div_eq_of_lt (by omega)).symm
    | cons c l' =>
      rw [chunksF, List.length_cons,
        ih size (List.drop size (c :: l'))
          (by rw [List.length_drop]; simp only [List.length_cons] at hl ⊢; omega) hs,
        List.length_drop]
      simp only [List.length_cons]
      by_cases hcase : l'.length + 1 ≤ size
      · have h1 : l'.length + 1 - size + size - 1 = size - 1 := by omega
        have h2 : l'.length + 1 + size - 1 = l'.length + size := by omega
        rw [h1, h2, Nat.div_eq_of_lt (by omega),
          Nat.add_div_right _ (by omega), Nat.div_eq_of_lt (by omega)]
      · have h1 : l'.length + 1 - size + size - 1 = l'.length := by omega
        have h2 : l'.length + 1 + size - 1 = l'.length + size := by omega
        rw [h1, h2, Nat.add_div_right _ (by omega)]

theorem chunksF_map_some {α : Type} :
    ∀ (fuel size : Nat) (l : List α),
    chunksF fuel size (l.map some) = (chunksF fuel size l).map (List.map some) := by
  intro fuel
  induction fuel with
  | zero => intro size l; simp [chunksF]
  | succ fuel ih =>
    intro size l
    cases l with
    | nil => simp [chunksF]
    | cons c l' =>
      simp only [List.map_cons, chunksF, List.map_cons]
      rw [← List.map_cons some c l', ← List.map_take, ← List.map_drop, ih]

theorem unpad_eq {α : Type} :
    ∀ (c : List α) (k : Nat),
    (((c.map some) ++ List.replicate k (none : Option α)).takeWhile Option.isSome).filterMap id = c := by
  intro c
  induction c with
  | nil =>
    intro k
    cases k with
    | zero => simp
    | succ k => simp [List.replicate_succ, List.takeWhile]
  | cons a c' ih =>
    intro k
    simp only [List.map_cons, List.cons_append, List.takeWhile]
    simp [ih k]

theorem slurmBatches_eq (cmds : List String) (size : Nat) :
    slurmBatches cmds size = chunksF cmds.length size cmds := by
  unfold slurmBatches grouper
  rw [List.length_map, chunksF_map_some]
  generalize chunksF cmds.length size cmds = cs
  induction cs with
  | nil => rfl
  | cons c cs ih =>
    simp only [List.map_cons]
    rw [ih]
    congr 1
    simp only [List.length_map]
    exact unpad_eq c (size - c.length)

theorem chunksF_map_length {α : Type} :
    ∀ (fuel size : Nat) (l : List α),
    (chunksF fuel size l).map List.length = sizeChunks fuel size l.length := by
  intro fuel
  induction fuel with
  | zero => intro size l; simp [chunksF, sizeChunks]
  | succ fuel ih =>
    intro size l
    cases l with
    | nil => simp [chunksF, sizeChunks]
    | cons c l' =>
      rw [chunksF, List.map_cons, ih, List.length_take, List.length_drop]
      rw [show (c :: l').length = l'.length + 1 from rfl, sizeChunks]

theorem grouper_length_some (cmds : List String) (size : Nat) (hs : 1 ≤ size) :
    (grouper size (cmds.map some) none).length = (cmds.length + size - 1) / size := by
  unfold grouper
  rw [List.length_map, List.length_map,
    chunksF_length _ _ _ (le_of_eq (List.length_map cmds some)) hs]
  rw [List.length_map]

theorem isPrefixOf_append_self : ∀ (f t : List Char), f.isPrefixOf (f ++ t) = true := by
  intro f
  induction f with
  | nil => intro t; simp [List.isPrefixOf]
  | cons c f' ih => intro t; simp [List.isPrefixOf, ih]

theorem substrB_sandwich : ∀ (pre f suf : List Char), substrB f (pre ++ f ++ suf) = true := by
  intro pre
  induction pre with
  | nil =>
    intro f suf
    cases f with
    | nil =>
      cases suf with
      | nil => simp [substrB]
      | cons c s' => simp [substrB, List.isPrefixOf]
    | cons c f' =>
      rw [List.nil_append, show (c :: f') ++ suf = c :: (f' ++ suf) from rfl, substrB]
      rw [show c :: (f' ++ suf) = (c :: f') ++ suf from rfl, isPrefixOf_append_self]
      simp
  | cons c pre' ih =>
    intro f suf
    rw [show ((c :: pre') ++ f ++ suf) = c :: (pre' ++ f ++ suf) from rfl, substrB, ih]
    simp

theorem doLoop_abort (acts : List PAction) (a : Args) :
    ∀ (files : List (List Char)) (todo : List (List Char × RState)) (ign : Nat)
      (p : List Char) (m : String), p ∈ files →
      acceptAll acts (basename p) (initState a p) = .fatalO m →
      ∃ e, doLoop acts a files todo ign = .error e := by
  intro files
  induction files with
  | nil => intro _ _ _ _ hmem _; simp at hmem
  | cons q rest ih =>
    intro todo ign p m hmem hfat
    rcases List.mem_cons.mp hmem with heq | hmem'
    · subst heq
      exact ⟨m, by rw [doLoop, hfat]⟩
    · cases hq : acceptAll acts (basename q) (initState a q) with
      | fatalO m' => exact ⟨m', by rw [doLoop, hq]⟩
      | rejectedO r =>
        obtain ⟨e, he⟩ := ih todo (ign + 1) p m hmem' hfat
        exact ⟨e, by rw [doLoop, hq]; exact he⟩
      | accepted f st =>
        obtain ⟨e, he⟩ := ih (dictInsert todo q (("new", .str f) :: st)) ign p m hmem' hfat
        exact ⟨e, by rw [doLoop, hq]; exact he⟩

theorem dictInsert_length_new (p : List Char) (v : RState) :
    ∀ (todo : List (List Char × RState)), p ∉ todo.map Prod.fst →
    (dictInsert todo p v).length = todo.length + 1 := by
  intro todo
  induction todo with
  | nil => intro _; rfl
  | cons e rest ih =>
    intro hnot
    simp at hnot
    rw [dictInsert, if_neg (fun hc => hnot.1 hc.symm)]
    simp [ih (by simp; exact hnot.2)]

theorem dictInsert_fst_new (p : List Char) (v : RState) :
    ∀ (todo : List (List Char × RState)), p ∉ todo.map Prod.fst →
    (dictInsert todo p v).map Prod.fst = todo.map Prod.fst ++ [p] := by
  intro todo
  induction todo with
  | nil => intro _; rfl
  | cons e rest ih =>
    intro hnot
    simp at hnot
    rw [dictInsert, if_neg (fun hc => hnot.1 hc.symm)]
    simp [ih (by simp; exact hnot.2)]

theorem doLoop_counts (acts : List PAction) (a : Args) :
    ∀ (files : List (List Char)) (todo : List (List Char × RState)) (ign : Nat)
      (out : List (List Char × RState) × Nat),
    doLoop acts a files todo ign = .ok out → files.Nodup →
    (∀ q ∈ files, q ∉ todo.map Prod.fst) →
    out.1.length + out.2 = todo.length + ign + files.length := by
  intro files
  induction files with
  | nil =>
    intro todo ign out h _ _
    rw [doLoop] at h
    simp at h
    simp [← h]
  | cons q rest ih =>
    intro todo ign out h hnd hdisj
    rw [doLoop] at h
    cases hq : acceptAll acts (basename q) (initState a q) with
    | fatalO m => rw [hq] at h; exact absurd h (by simp)
    | rejectedO r =>
      rw [hq] at h
      have hrec := ih todo (ign + 1) out h (List.Nodup.of_cons hnd)
        (fun q' hq' => hdisj q' (List.mem_cons_of_mem q hq'))
      rw [hrec]
      simp only [List.length_cons]
      omega
    | accepted f st =>
      rw [hq] at h
      have hqnot : q ∉ todo.map Prod.fst := hdisj q (List.mem_cons_self q rest)
      have hdisj' : ∀ q' ∈ rest, q' ∉ (dictInsert todo q (("new", .str f) :: st)).map Prod.fst := by
        intro q' hq' hc
        rw [dictInsert_fst_new q _ todo hqnot] at hc
        rcases List.mem_append.mp hc with hc1 | hc2
        · exact hdisj q' (List.mem_cons_of_mem q hq') hc1
        · have : q' = q := by simpa using hc2
          subst this
          exact (List.nodup_cons.mp hnd).1 hq'
      have hrec := ih _ ign out h (List.Nodup.of_cons hnd) hdisj'
      rw [hrec, dictInsert_length_new q _ todo hqnot]
      simp only [List.length_cons]
      omega

theorem string_data_ne_nil {s : String} (h : s ≠ "") : s.data ≠ [] := by
  intro hd
  apply h
  cases s with
  | mk d =>
    simp at hd
    rw [hd]

theorem validate_ok_balanced (a : Args) (u : Unit) (hv : validateArgs a = .ok u) :
    (a.fromPattern = "") ↔ (a.toPattern = "") := by
  unfold validateArgs at hv
  split at hv
  · exact absurd hv (by simp)
  · split at hv
    · exact absurd hv (by simp)
    · rename_i hxor
      constructor
      · intro hf
        by_contra ht
        exact hxor (by simp [hf, ht])
      · intro ht
        by_contra hf
        exact hxor (by simp [hf, ht])

theorem buildPipeline_rename_shape (a : Args) (acts : List PAction)
    (hr : a.rename = true) (hb : buildPipeline a = .ok acts) :
    ∃ t, acts = PAction.mention :: PAction.ic6k :: t := by
  unfold buildPipeline at hb
  cases hrs : renameStage a with
  | error e => rw [hrs] at hb; exact absurd hb (by simp)
  | ok m =>
    rw [hrs] at hb
    simp [hr] at hb
    exact ⟨_, hb.symm⟩

/-- C1 (amended to jobs of at least one command): for `M ≥ 1` commands and
batch size `S ≥ 1`, `submit_to_slurm` writes exactly `ceil(M/S)` batch
scripts, the batches concatenate back to the original command list (each
command in exactly one batch, order preserved), the batch sizes are `S` for
every full batch with the remainder in the last, and the submission declares
the array range `0..ceil(M/S)-1`. -/
theorem slurm_batches_correct (cmds : List String) (size : Nat)
    (hsize : 1 ≤ size) (hne : cmds ≠ []) :
    (slurmBatches cmds size).length = (cmds.length + size - 1) / size ∧
    (slurmBatches cmds size).flatten = cmds ∧
    (slurmBatches cmds size).map List.length = sizeChunks cmds.length size cmds.length ∧
    slurmArrayTop cmds size = some ((cmds.length + size - 1) / size - 1) := by
  have hb := slurmBatches_eq cmds size
  refine ⟨?_, ?_, ?_, ?_⟩
  · rw [hb]; exact chunksF_length _ _ _ (le_refl _) hsize
  · rw [hb]; exact chunksF_join _ _ _ (le_refl _) hsize
  · rw [hb]; exact chunksF_map_length _ _ _
  · unfold slurmArrayTop
    rw [grouper_length_some cmds size hsize]
    have hc1 : 1 ≤ cmds.length := by
      cases cmds with
      | nil => exact absurd rfl hne
      | cons a t => simp
    have hpos : 1 ≤ (cmds.length + size - 1) / size := by
      rw [Nat.one_le_div_iff (by omega)]
      omega
    obtain ⟨k, hk⟩ : ∃ k, (cmds.length + size - 1) / size = k + 1 :=
      ⟨(cmds.length + size - 1) / size - 1, by omega⟩
    rw [hk]
    simp

/-- C1 witness: 2500 commands at batch size 1000 give 3 batches of sizes
1000/1000/500 and the array range 0-2. -/
theorem slurm_batches_correct_witness :
    (1 ≤ 1000 ∧ List.replicate 2500 "convert" ≠ ([] : List String)) ∧
    (slurmBatches (List.replicate 2500 "convert") 1000).length = 3 ∧
    (slurmBatches (List.replicate 2500 "convert") 1000).map List.length = [1000, 1000, 500] ∧
    slurmArrayTop (List.replicate 2500 "convert") 1000 = some 2 := by
  have hne : List.replicate 2500 "convert" ≠ ([] : List String) :=
    List.length_pos.mp (by rw [List.length_replicate]; omega)
  have h := slurm_batches_correct (List.replicate 2500 "convert") 1000 (by decide) hne
  refine ⟨⟨by decide, hne⟩, ?_, ?_, ?_⟩
  · rw [h.1, List.length_replicate]
  · rw [h.2.2.1, List.length_replicate]
    decide
  · rw [h.2.2.2, List.length_replicate]

/-- C1 counterexample: for an empty job (`M = 0`) the generator never binds
the batch index, the submission line raises `NameError`, and no array range
`0..ceil(0/S)-1` is ever declared, contrary to the claim's `M ≥ 0`. -/
theorem slurm_empty_job_counterexample :
    slurmArrayTop ([] : List String) 1000 = none := rfl

/-- C2 (amended): the round trip holds for the reciprocal formatter of the
from-pattern itself (not the formatter of a different to-pattern): for a
brace-free glob with no recognized trailing image extension, filling the
glob's formatter with the matcher's captures reproduces exactly the prefix of
`s` the matcher consumed; in particular it reproduces `s` when the match
consumes all of `s`. -/
theorem star_roundtrip_same_pattern (g s : List Char) (gs : List (List Char)) (rest : List Char)
    (_hnb : hasBrace g = false)
    (hext : (makeStarPattern g).ext = [])
    (hm : reMatch false (makeFilenameRe g) s = some (gs, rest)) :
    fill (makeStarPattern g) gs ++ rest = s ∧
    (rest = [] → fill (makeStarPattern g) gs = s) := by
  have hre : makeFilenameRe g = starToks (makeStarPattern g).parts := by
    rw [show makeFilenameRe g =
      starToks (makeStarPattern g).parts ++ extToks (makeStarPattern g).ext from rfl, hext]
    simp [extToks]
  rw [hre] at hm
  unfold reMatch at hm
  have hnd := noDot_starToks (makeStarPattern g).parts
  have hsound := reMatchF_sound _ _ _ _ _ hnd hm
  have hlen : gs.length = (makeStarPattern g).parts.length - 1 := by
    rw [reMatchF_len false _ _ _ _ _ hm, capCount_starToks]
  have hfill : fill (makeStarPattern g) gs = rebuild (starToks (makeStarPattern g).parts) gs := by
    unfold fill
    rw [hext, rebuild_starToks _ _ hlen]
    simp
  constructor
  · rw [hfill]
    exact hsound
  · intro hrest
    rw [hfill]
    rw [hrest] at hsound
    simpa using hsound

/-- C2 witness: the from-pattern `img_*_ch*` round-trips `img_42_ch3.tif`
through its own formatter. -/
theorem star_roundtrip_same_pattern_witness :
    (hasBrace ("img_*_ch*".data) = false ∧
     (makeStarPattern ("img_*_ch*".data)).ext = [] ∧
     reMatch false (makeFilenameRe ("img_*_ch*".data)) ("img_42_ch3.tif".data) =
       some (["42".data, "3.tif".data], [])) ∧
    fill (makeStarPattern ("img_*_ch*".data)) ["42".data, "3.tif".data] = "img_42_ch3.tif".data := by
  refine ⟨⟨by decide, by decide, by decide⟩, ?_⟩
  exact (star_roundtrip_same_pattern ("img_*_ch*".data) ("img_42_ch3.tif".data)
    ["42".data, "3.tif".data] [] (by decide) (by decide) (by decide)).2 rfl

/-- C2 counterexample: with from-pattern `a*` and to-pattern `b*` the matcher
accepts `s = "a"` capturing `wildcard0 = ""`, but the generated (to-pattern)
formatter filled with those captures yields `b`, not `s`. -/
theorem formatter_matcher_counterexample :
    reMatch false (makeFilenameRe ("a*".data)) ("a".data) = some ([[]], []) ∧
    fill (makeStarPattern ("b*".data)) [[]] = "b".data ∧
    "b".data ≠ "a".data := by
  refine ⟨by decide, by decide, by decide⟩

/-- C3 (amended to duplicate-free input lists): after a completed run over
distinct paths, the reported to-do count plus the ignored count equals the
reported total of examined files. -/
theorem summary_counts_nodup (acts : List PAction) (a : Args) (inbox : List (List Char))
    (r : DoResult) (h : doActions acts a inbox = .ok r) (hnd : inbox.Nodup) :
    r.toDo + r.ignored = r.total := by
  unfold doActions at h
  split at h
  · exact absurd h (by simp)
  · rename_i out hloop
    split at h
    · exact absurd h (by simp)
    · rename_i cmds hmat
      have hc := doLoop_counts acts a inbox [] 0 out hloop hnd (by simp)
      injection h with h'
      rw [← h']
      simp at hc ⊢
      omega

/-- C3 witness: the two-file convert scenario sums 1 + 1 = 2. -/
theorem summary_counts_nodup_witness :
    doActions convertActs cargs ["a.tif".data, "b.txt".data] =
      Except.ok (⟨2, 1, 1, [c9cmd]⟩ : DoResult) ∧
    List.Nodup ["a.tif".data, "b.txt".data] ∧
    (⟨2, 1, 1, [c9cmd]⟩ : DoResult).toDo + (⟨2, 1, 1, [c9cmd]⟩ : DoResult).ignored =
      (⟨2, 1, 1, [c9cmd]⟩ : DoResult).total := by
  refine ⟨rfl, by decide, ?_⟩
  exact summary_counts_nodup convertActs cargs ["a.tif".data, "b.txt".data] _ rfl (by decide)

/-- C3 counterexample: listing the same path twice makes the accepted entries
collapse into one dict key, so the reported counts 1 + 0 do not sum to the
2 examined files. -/
theorem summary_counts_counterexample :
    doActions convertActs cargs ["a.tif".data, "a.tif".data] =
      Except.ok (⟨2, 1, 0, [c9cmd]⟩ : DoResult) ∧
    (1 : Nat) + 0 ≠ 2 := by
  refine ⟨rfl, by decide⟩

/-- C4: if the from-pattern and to-pattern have different `*` counts, the
run fails during pre-flight (either the CLI pairing check or the
`Rename.__init__` count check), with the same error for every input file
list — no file is examined, accepted, rejected, or acted upon. -/
theorem mismatched_wildcards_preflight (a : Args)
    (h : countStar a.fromPattern.data ≠ countStar a.toPattern.data) :
    ∃ e, preflight a = .error e ∧ ∀ inbox, mainModel a inbox = .error e := by
  have hmain : ∀ e, preflight a = .error e → ∀ inbox, mainModel a inbox = .error e := by
    intro e he inbox
    unfold mainModel
    rw [he]
  suffices hs : ∃ e, preflight a = .error e by
    obtain ⟨e, he⟩ := hs
    exact ⟨e, he, hmain e he⟩
  cases hv : validateArgs a with
  | error e => exact ⟨e, by unfold preflight; rw [hv]⟩
  | ok u =>
    have hbal := validate_ok_balanced a u hv
    by_cases hf : a.fromPattern = ""
    · exfalso
      apply h
      rw [hf, hbal.mp hf]
    · have ht : a.toPattern ≠ "" := fun ht => hf (hbal.mpr ht)
      have hfd : a.fromPattern.data ≠ [] := string_data_ne_nil hf
      have htd : a.toPattern.data ≠ [] := string_data_ne_nil ht
      refine ⟨wildcardCountErr, ?_⟩
      unfold preflight
      rw [hv]
      unfold buildPipeline renameStage renameInit
      rw [if_pos hf, if_neg (fun hor => hor.elim hfd htd), if_pos h]

/-- C4 witness: `--from-pattern a*` with `--to-pattern b` (1 vs 0 wildcards)
yields a pre-flight configuration error. -/
theorem mismatched_wildcards_preflight_witness :
    countStar margs.fromPattern.data ≠ countStar margs.toPattern.data ∧
    ∃ e, preflight margs = .error e ∧ ∀ inbox, mainModel margs inbox = .error e :=
  ⟨by decide, mismatched_wildcards_preflight margs (by decide)⟩

/-- C5: a filename matching the IC6000 shape whose channel tag is not in the
closed channel table makes `accept` fail with the fatal parse error (not a
Reject), the error message names the offending file, and in any
rename-enabled pipeline the whole `do_actions` run aborts with that error
before producing a summary or commands. -/
theorem unknown_channel_tag_fatal (f : List Char) (gs : List (List Char)) (rest : List Char)
    (hm : ic6000Match f = some (gs, rest))
    (hc : channelsLookup (gs.getD 6 []) = none) :
    ic6kAccept f = .fatal (ic6kErrMsg f (gs.getD 6 [])) ∧
    substrB f (ic6kErrMsg f (gs.getD 6 [])).data = true ∧
    ∀ (a : Args) (acts : List PAction) (inbox : List (List Char)) (p : List Char),
      a.rename = true → buildPipeline a = .ok acts → p ∈ inbox → basename p = f →
      ∃ e, doActions acts a inbox = .error e := by
  have hacc : ic6kAccept f = .fatal (ic6kErrMsg f (gs.getD 6 [])) := by
    simp only [ic6kAccept, hm]
    rw [hc]
  refine ⟨hacc, ?_, ?_⟩
  · exact substrB_sandwich ("Cannot parse file name `".data) f
      ("` with IC6000 pattern: '".data ++ ((gs.getD 6 []) ++ "'".data))
  · intro a acts inbox p hr hbp hmem hbase
    obtain ⟨t, ht⟩ := buildPipeline_rename_shape a acts hr hbp
    subst ht
    have hfatAll : acceptAll (PAction.mention :: PAction.ic6k :: t) (basename p)
        (initState a p) = .fatalO (ic6kErrMsg f (gs.getD 6 [])) := by
      simp [acceptAll, actionAccept, hbase, hacc]
    obtain ⟨e, he⟩ := doLoop_abort _ a inbox [] 0 p _ hmem hfatAll
    refine ⟨e, ?_⟩
    unfold doActions
    rw [he]

/-- C5 witness: `20180328_TestAbs_G - 8(fld 4 wv Red - Foo).tif` matches the
IC6000 shape, `Foo` is outside the channel table, and a rename-only run over
that file aborts. -/
theorem unknown_channel_tag_fatal_witness :
    (ic6000Match ("20180328_TestAbs_G - 8(fld 4 wv Red - Foo).tif".data) =
      some (["20180328".data, "TestAbs".data, "G".data, "8".data, "4".data,
             "Red".data, "Foo".data], "tif".data) ∧
     channelsLookup ("Foo".data) = none) ∧
    ic6kAccept ("20180328_TestAbs_G - 8(fld 4 wv Red - Foo).tif".data) =
      .fatal (ic6kErrMsg ("20180328_TestAbs_G - 8(fld 4 wv Red - Foo).tif".data) ("Foo".data)) ∧
    ∃ e, doActions [PAction.mention, PAction.ic6k, PAction.newName]
      (⟨false, true, "", "", true, true⟩ : Args)
      [("20180328_TestAbs_G - 8(fld 4 wv Red - Foo).tif".data)] = .error e := by
  have h := unknown_channel_tag_fatal ("20180328_TestAbs_G - 8(fld 4 wv Red - Foo).tif".data)
    ["20180328".data, "TestAbs".data, "G".data, "8".data, "4".data, "Red".data, "Foo".data]
    ("tif".data) (by decide) (by decide)
  refine ⟨⟨by decide, by decide⟩, h.1, ?_⟩
  exact h.2.2 (⟨false, true, "", "", true, true⟩ : Args)
    [PAction.mention, PAction.ic6k, PAction.newName]
    [("20180328_TestAbs_G - 8(fld 4 wv Red - Foo).tif".data)]
    ("20180328_TestAbs_G - 8(fld 4 wv Red - Foo).tif".data)
    rfl rfl (by simp) (by decide)

/-- C6 (amended): with `--from-pattern img_*_ch*` and `--to-pattern
sample_*_channel*` on `img_42_ch3.tif`, the matcher captures
`wildcard0 = "42"` and `wildcard1 = "3.tif"` (the image extension is only
stripped from the patterns, not from the subject filename, so `.tif` rides
in the trailing wildcard), and the destination is `sample_42_channel3.tif`. -/
theorem rename_scenario_amended :
    renameInit ("img_*_ch*".data) ("sample_*_channel*".data) = .ok c6cfg ∧
    renameAcceptR c6cfg ("img_42_ch3.tif".data) =
      .ok ("sample_42_channel3.tif".data)
        [("wildcard0", StateVal.str "42".data), ("wildcard1", StateVal.str "3.tif".data)] :=
  ⟨rfl, rfl⟩

/-- C6 counterexample: the second capture is `"3.tif"`, not the `"3"` the
claim states. -/
theorem rename_scenario_counterexample :
    (reMatch false (makeFilenameRe ("img_*_ch*".data)) ("img_42_ch3.tif".data)).map
        (fun r => r.1.getD 1 []) = some ("3.tif".data) ∧
    some ("3.tif".data) ≠ some ("3".data) :=
  ⟨rfl, by decide⟩

/-- C7: whenever dry-run (`--check`) is requested, `run` prints the commands
and neither executes nor submits anything, for every command list and every
batch setting. -/
theorem dry_run_precedence (cmds : List String) (batch : Nat) :
    run cmds true batch = RunEffect.printed cmds := rfl

/-- C8 (code bug): with no from/to pair configured, `Rename.__init__` stores
`None` in `self._from_pattern` (underscore) while `accept` reads
`self.from_pattern`, so instead of the documented identity pass-through,
`accept` raises `AttributeError` on any filename. -/
theorem rename_unconfigured_attribute_bug :
    renameInit ([] : List Char) ([] : List Char) = .ok RenameCfg.unsetAttr ∧
    renameAcceptR RenameCfg.unsetAttr ("a.tif".data) = .fatal attrErrorMsg :=
  ⟨rfl, rfl⟩

/-- C9: in a convert-only run without `--keep` over `a.tif` and `b.txt`,
`a.tif` is accepted with destination `a.png` and its command sequence is the
mention line, the convert invocation, and the removal of `a.tif`; `b.txt` is
rejected with reason "not a TIFF file"; the summary reports 2 examined, 1
accepted, 1 ignored. -/
theorem convert_scenario :
    buildPipeline cargs = .ok convertActs ∧
    actionAccept PAction.tiffToPng ("a.tif".data) = .ok ("a.png".data) [] ∧
    actionAccept PAction.tiffToPng ("b.txt".data) = .reject "not a TIFF file" ∧
    acceptAll convertActs ("a.tif".data) (initState cargs ("a.tif".data)) =
      .accepted ("a.png".data) (initState cargs ("a.tif".data)) ∧
    doActions convertActs cargs ["a.tif".data, "b.txt".data] =
      Except.ok (⟨2, 1, 1, [c9cmd]⟩ : DoResult) :=
  ⟨rfl, rfl, rfl, rfl, rfl⟩

/-- C10: `NewName.process` emits no link command and leaves both the command
list and the state unchanged whenever the state's `old` and `new` entries are
equal. -/
theorem newname_equal_noop (fmts : List Fmt) (st : RState) (v : StateVal)
    (h1 : stateLookup "old" st = some v) (h2 : stateLookup "new" st = some v) :
    actionProcess PAction.newName fmts st = .ok (fmts, st) := by
  have heq : actionProcess PAction.newName fmts st =
      match stateLookup "old" st, stateLookup "new" st with
      | some a, some b => if a = b then Except.ok (fmts, st) else Except.ok (fmts ++ [lnFmt], st)
      | _, _ => Except.error "KeyError" := rfl
  rw [heq, h1, h2]
  simp

/-- C10 witness: a state with `old = new = "x"` leaves process a no-op. -/
theorem newname_equal_noop_witness :
    stateLookup "old" nnState = some (StateVal.str "x".data) ∧
    stateLookup "new" nnState = some (StateVal.str "x".data) ∧
    actionProcess PAction.newName [] nnState = .ok ([], nnState) :=
  ⟨rfl, rfl, newname_equal_noop [] nnState (StateVal.str "x".data) rfl rfl⟩

end Microf
